import Mathlib

/-!
Verification of the scryptlib state codec (src/unnamed/part_001, class
`Stateful`) and the legacy ASM serializer (src/src/serializer.ts).

Hex strings of the source are modelled as lists of byte values
(`List Nat`, each element below 256); two hex characters of the source
correspond to one list element here, so every character count of the
source appears halved.

External collaborators of the repository that are not under src/ are
modelled from the spec and marked `Modelled from the spec:` in their doc
comments; everything else is translated directly from the source.
-/

namespace Scryptlib

/-- Little-endian base-256 value of a byte list (the numeric reading used
by `BN.fromSM` on the magnitude part). -/
def leVal (bs : List ℕ) : ℕ := bs.foldr (fun b acc => b + 256 * acc) 0

/-- Fuel-driven little-endian digit expansion: `leDigits f m` is the
minimal little-endian base-256 digit list of `m` provided `m ≤ f`.
Structural recursion on the fuel keeps the definition kernel-reducible. -/
def leDigits : ℕ → ℕ → List ℕ
  | 0, _ => []
  | _ + 1, 0 => []
  | f + 1, m => m % 256 :: leDigits f (m / 256)

/-- Minimal little-endian byte encoding of a natural number (`[]` for 0),
as produced by `bsv.crypto.BN` for the magnitude. -/
def natToLEB (n : ℕ) : List ℕ := leDigits n n

/-- The sign-magnitude encoding `BN.toSM(\x7bendian: little\x7d)` used by the
source for integers: minimal little-endian magnitude; if the top magnitude
byte has the high bit set an extra sign byte is appended, otherwise a
negative sign is carried in the high bit of the top byte. Returns `[]`
for 0 (the source special-cases 0 before calling this). -/
def smEncode (n : ℤ) : List ℕ :=
  let mag := natToLEB n.natAbs
  match mag.getLast? with
  | none => []
  | some last =>
    if 128 ≤ last then mag ++ [if n < 0 then 128 else 0]
    else if n < 0 then mag.dropLast ++ [last + 128]
    else mag

/-- The source `bin2num` (`BN.fromSM`, little endian): little-endian
sign-magnitude reading of a byte list; the high bit of the last byte is
the sign. -/
def bin2num (bs : List ℕ) : ℤ :=
  match bs.getLast? with
  | none => 0
  | some last =>
    if last < 128 then (leVal bs : ℤ)
    else -(leVal (bs.dropLast ++ [last - 128]) : ℤ)

/-- Modelled from the spec: the push-data framing applied by
`bsv.Script.fromASM(payload).toHex()` (spec section 6): payloads of 1-75
bytes get a single length byte, longer payloads use the 1-, 2- or 4-byte
extended length forms. An empty payload produces an empty script. -/
def pushData (p : List ℕ) : List ℕ :=
  let L := p.length
  if L = 0 then []
  else if L ≤ 75 then L :: p
  else if L ≤ 255 then 76 :: L :: p
  else if L ≤ 65535 then 77 :: L % 256 :: L / 256 :: p
  else 78 :: L % 256 :: L / 256 % 256 :: L / 65536 % 256 :: L / 16777216 % 256 :: p

/-- Modelled from the spec: the payload of the first push-data chunk of a
script, as read by `bsv.Script.fromHex(hex).chunks[0].buf` in the source.
Chunks that carry no payload buffer (`OP_0`, plain opcodes) make the
source dereference an undefined `buf`, which is an error here. -/
def firstChunkPayload (s : List ℕ) : Except String (List ℕ) :=
  match s with
  | [] => .error "script has no chunks"
  | op :: rest =>
    if 1 ≤ op ∧ op ≤ 75 then .ok (rest.take op)
    else if op = 76 then
      match rest with
      | l :: r => .ok (r.take l)
      | [] => .error "truncated pushdata"
    else if op = 77 then
      match rest with
      | l0 :: l1 :: r => .ok (r.take (l0 + 256 * l1))
      | _ => .error "truncated pushdata"
    else if op = 78 then
      match rest with
      | l0 :: l1 :: l2 :: l3 :: r =>
          .ok (r.take (l0 + 256 * l1 + 65536 * l2 + 16777216 * l3))
      | _ => .error "truncated pushdata"
    else .error "chunk has no buf"

/-- Modelled from the spec: `num2bin` from utils (not under src/), the
fixed-size little-endian encoding used for the 4-byte bodyLength and the
1-byte version trailer fields. -/
def num2bin (n : ℕ) (size : ℕ) : List ℕ :=
  (List.range size).map (fun i => n / 256 ^ i % 256)

/-- The primitive type tags of `ScryptType` dispatched on by the source;
`custom` stands for any other (non-native) type name string. -/
inductive ScryptType where
  | bool
  | int
  | bytes
  | privkey
  | pubkey
  | sig
  | ripemd160
  | sha1
  | sha256
  | sighashtype
  | sighashpreimage
  | opcodetype
  | custom (name : String)
deriving DecidableEq, Repr

/-- The payload carried by a string literal after `parseLiteral`
(modelled from the spec: `parseLiteral` is not under src/): PrivKey
literals carry an integer, the byte-string-like literals carry raw hex
bytes. `badhex` marks a literal whose payload is not valid hex, as
produced when the SigHashType constructor is fed a negative number. -/
inductive LitVal where
  | i (n : ℤ)
  | bs (b : List ℕ)
  | badhex (n : ℤ)
deriving DecidableEq, Repr

/-- A runtime value of `SupportedParamType` as dispatched on by
`Stateful.toHex` via `typeof`: a JS bigint, a JS boolean, a JS string
literal (tagged by the type `parseLiteral` reports for it), or any other
runtime value (`other`), for which the source has a silent default. -/
inductive SupportedParamType where
  | int (n : ℤ)
  | bool (b : Bool)
  | lit (t : ScryptType) (v : LitVal)
  | other
deriving DecidableEq, Repr

/-- The unchecked cast `value as bigint` applied by the source to a
PrivKey literal payload. -/
def litInt : LitVal → ℤ
  | .i n => n
  | _ => 0

/-- The unchecked cast `value as Bytes` applied by the source to the
payload of every non-PrivKey literal. -/
def litBytes : LitVal → List ℕ
  | .bs b => b
  | _ => []

/-- Modelled from the spec: the `SigHashType` constructor of scryptTypes
(not under src/), which wraps a small unsigned integer as a literal whose
payload is that value rendered as one hex byte; a number outside the byte
range does not render as valid hex. -/
def sigHashLit (n : ℤ) : LitVal :=
  if 0 ≤ n ∧ n < 256 then .bs [n.toNat] else .badhex n

/-- A flattened state argument: name path, resolved primitive type, and
value, as produced by `flatternArg` (spec section 4.2). -/
structure Argument where
  name : String
  type : ScryptType
  value : SupportedParamType
deriving DecidableEq, Repr

namespace Stateful

/-- The state version constant of the source. -/
def CURRENT_STATE_VERSION : ℕ := 0

/-- `Stateful.int2hex`: sign-magnitude little-endian minimal encoding,
with 0 mapped to the single byte 0x00, wrapped as a push-data element. -/
def int2hex (n : ℤ) : List ℕ :=
  pushData (if n = 0 then [0] else smEncode n)

/-- `Stateful.hex2int`: first push-data chunk payload read back through
`bin2num`. -/
def hex2int (hex : List ℕ) : Except String ℤ :=
  match firstChunkPayload hex with
  | .error e => .error e
  | .ok buf => .ok (bin2num buf)

/-- `Stateful.bool2hex`: one raw byte, 0x01 for true and 0x00 for false. -/
def bool2hex (b : Bool) : List ℕ :=
  if b then [1] else [0]

/-- `Stateful.hex2bool`: accepts exactly 0x01 and 0x00, errors on
anything else. -/
def hex2bool (hex : List ℕ) : Except String Bool :=
  if hex = [1] then .ok true
  else if hex = [0] then .ok false
  else .error "invalid hex"

/-- `Stateful.bytes2hex`: the empty byte string maps to the one-byte
marker 0x00; anything else is wrapped as a push-data element. -/
def bytes2hex (b : List ℕ) : List ℕ :=
  if b = [] then [0] else pushData b

/-- `Stateful.hex2bytes`: the marker 0x00 decodes to the empty byte
string; anything else is read as the first push-data chunk payload. -/
def hex2bytes (hex : List ℕ) : Except String (List ℕ) :=
  if hex = [0] then .ok [] else firstChunkPayload hex

/-- `Stateful.toHex`: dispatch on the JS runtime type of the value. Note
the final catch-all of the source, which silently returns the hex byte
0x00 for any value that is not a bigint, a boolean or a string. -/
def toHex : SupportedParamType → List ℕ
  | .int n => int2hex n
  | .bool b => bool2hex b
  | .lit t v => if t = ScryptType.privkey then int2hex (litInt v) else bytes2hex (litBytes v)
  | .other => [0]

/-- `Stateful.deserializer`: decode one leaf by its declared type; any
non-native type errors. -/
def deserializer (t : ScryptType) (hex : List ℕ) : Except String SupportedParamType :=
  match t with
  | .bool =>
    match hex2bool hex with
    | .error e => .error e
    | .ok b => .ok (.bool b)
  | .int =>
    match hex2int hex with
    | .error e => .error e
    | .ok n => .ok (.int n)
  | .bytes =>
    match hex2bytes hex with
    | .error e => .error e
    | .ok b => .ok (.lit .bytes (.bs b))
  | .privkey =>
    match hex2int hex with
    | .error e => .error e
    | .ok n => .ok (.lit .privkey (.i n))
  | .pubkey =>
    match hex2bytes hex with
    | .error e => .error e
    | .ok b => .ok (.lit .pubkey (.bs b))
  | .sig =>
    match hex2bytes hex with
    | .error e => .error e
    | .ok b => .ok (.lit .sig (.bs b))
  | .ripemd160 =>
    match hex2bytes hex with
    | .error e => .error e
    | .ok b => .ok (.lit .ripemd160 (.bs b))
  | .sha1 =>
    match hex2bytes hex with
    | .error e => .error e
    | .ok b => .ok (.lit .sha1 (.bs b))
  | .sha256 =>
    match hex2bytes hex with
    | .error e => .error e
    | .ok b => .ok (.lit .sha256 (.bs b))
  | .sighashtype =>
    match hex2int hex with
    | .error e => .error e
    | .ok n => .ok (.lit .sighashtype (sigHashLit n))
  | .sighashpreimage =>
    match hex2bytes hex with
    | .error e => .error e
    | .ok b => .ok (.lit .sighashpreimage (.bs b))
  | .opcodetype =>
    match hex2bytes hex with
    | .error e => .error e
    | .ok b => .ok (.lit .opcodetype (.bs b))
  | .custom _ => .error "cannot be cast to ScryptType, only sCrypt native types supported"

/-- The state body built by `Stateful.buildState`: the hidden isGenesis
boolean leaf followed by the concatenated leaf encodings of the
flattened arguments. -/
def stateBody (args : List Argument) (isGenesis : Bool) : List ℕ :=
  toHex (.bool isGenesis) ++ (args.map (fun a => toHex a.value)).flatten

/-- `Stateful.buildState` over the flattened argument list (`flatternArg`,
which is not under src/, is the identity on an already flattened list per
spec section 4.2): errors on an empty list, otherwise appends the 4-byte
little-endian body length and the 1-byte version to the body. -/
def buildState (args : List Argument) (isGenesis : Bool) : Except String (List ℕ) :=
  if args.length = 0 then
    .error "no state property found, buildContractState only used for state contract"
  else
    .ok (stateBody args isGenesis ++
      num2bin (stateBody args isGenesis).length 4 ++ num2bin CURRENT_STATE_VERSION 1)

end Stateful

/-- A `bsv.encoding.BufferReader`: an immutable buffer and a cursor. -/
structure BR where
  buf : List ℕ
  pos : ℕ
deriving Repr

/-- `BufferReader.readUInt8`: reads one byte, errors past the end (the
Node buffer read throws out of range). -/
def readUInt8 (br : BR) : Except String (ℕ × BR) :=
  match br.buf.drop br.pos with
  | [] => .error "readUInt8 out of range"
  | b :: _ => .ok (b, ⟨br.buf, br.pos + 1⟩)

/-- `BufferReader.read(len)`: slices `len` bytes, silently clamping at
the end of the buffer as Node `slice` does. -/
def brRead (br : BR) (n : ℕ) : List ℕ × BR :=
  ((br.buf.drop br.pos).take n, ⟨br.buf, br.pos + n⟩)

/-- Modelled from the spec: the repository `readBytes` helper (not under
src/), which consumes one push-data element from the reader per the
length-prefix rules of spec section 6 and returns its payload; opcodes
that push no data yield an empty payload. -/
def readBytes (br : BR) : Except String (List ℕ × BR) :=
  match readUInt8 br with
  | .error e => .error e
  | .ok (op, br1) =>
    if 1 ≤ op ∧ op ≤ 75 then .ok (brRead br1 op)
    else if op = 76 then
      match readUInt8 br1 with
      | .error e => .error e
      | .ok (l, br2) => .ok (brRead br2 l)
    else if op = 77 then
      match readUInt8 br1 with
      | .error e => .error e
      | .ok (l0, br2) =>
        match readUInt8 br2 with
        | .error e => .error e
        | .ok (l1, br3) => .ok (brRead br3 (l0 + 256 * l1))
    else if op = 78 then
      match readUInt8 br1 with
      | .error e => .error e
      | .ok (l0, br2) =>
        match readUInt8 br2 with
        | .error e => .error e
        | .ok (l1, br3) =>
          match readUInt8 br3 with
          | .error e => .error e
          | .ok (l2, br4) =>
            match readUInt8 br4 with
            | .error e => .error e
            | .ok (l3, br5) =>
              .ok (brRead br5 (l0 + 256 * l1 + 65536 * l2 + 16777216 * l3))
    else .ok ([], br1)

/-- JS `String.prototype.substr` transported to byte lists: a negative
start is offset from the end and clamped at 0, the length is clamped to
what is available. Both parameters are in bytes (the source uses hex
character counts, twice these). -/
def jsSubstr (s : List ℕ) (start len : ℤ) : List ℕ :=
  let st : ℕ := if start < 0 then (max 0 ((s.length : ℤ) + start)).toNat else start.toNat
  ((s.drop st).take (max 0 len).toNat)

/-- `Map.set` of the state template map, modelled as an association list
with replace-or-append semantics. -/
def mapSet (m : List (String × List ℕ)) (k : String) (v : List ℕ) :
    List (String × List ℕ) :=
  match m with
  | [] => [(k, v)]
  | (k1, v1) :: rest => if k1 = k then (k, v) :: rest else (k1, v1) :: mapSet rest k v

namespace Stateful

/-- The template-filling walk of `Stateful.parseStateHex` over the
flattened dummy arguments: a Boolean leaf consumes one raw byte and is
normalised to 0x01 or 0x00; every other leaf consumes one push-data
element and is re-framed through `bsv.Script.fromASM(data).toHex()` when
nonempty, or mapped to the empty string otherwise. -/
def walkTemplate : List (String × ScryptType) → BR → List (String × List ℕ) →
    Except String (List (String × List ℕ))
  | [], _, acc => .ok acc
  | (nm, t) :: rest, br, acc =>
    if t = ScryptType.bool then
      match readUInt8 br with
      | .error e => .error e
      | .ok (op, br1) =>
        walkTemplate rest br1 (mapSet acc nm (if op = 1 then [1] else [0]))
    else
      match readBytes br with
      | .error e => .error e
      | .ok (data, br1) =>
        walkTemplate rest br1 (mapSet acc nm (if data.isEmpty then [] else pushData data))

/-- Modelled from the spec: `deserializeArgfromHex` (deserializer.ts, not
under src/) on a primitive leaf: look the leaf hex up by name path in the
template map and decode it through the Leaf Codec `Stateful.deserializer`
(spec section 4.5, step 5). -/
def deserializeArgfromHex (templ : List (String × List ℕ)) (nm : String)
    (t : ScryptType) : Except String Argument :=
  match deserializer t ((templ.lookup nm).getD []) with
  | .error e => .error e
  | .ok v => .ok ⟨nm, t, v⟩

/-- The final reassembly map of `Stateful.parseStateHex`: each declared
property deserialized from the filled template, with JS exception
propagation. -/
def mapDeser (templ : List (String × List ℕ)) :
    List (String × ScryptType) → Except String (List Argument)
  | [] => .ok []
  | (nm, t) :: rest =>
    match deserializeArgfromHex templ nm t with
    | .error e => .error e
    | .ok a =>
      match mapDeser templ rest with
      | .error e => .error e
      | .ok tail1 => .ok (a :: tail1)

/-- The body walk of `Stateful.parseStateHex` on the sliced state hex:
read the first byte, compare it with 1 to obtain isGenesis (no other
validation), fill the positional template, reassemble the arguments. -/
def parseBody (props : List (String × ScryptType)) (stateHex : List ℕ) :
    Except String (Bool × List Argument) :=
  match readUInt8 ⟨stateHex, 0⟩ with
  | .error e => .error e
  | .ok (opcodenum, br1) =>
    match walkTemplate props br1 [] with
    | .error e => .error e
    | .ok templ =>
      match mapDeser templ props with
      | .error e => .error e
      | .ok args => .ok (opcodenum == 1, args)

/-- The version byte read (and then never used) by
`Stateful.parseStateHex`: `bin2num` of the last byte of the 5-byte meta
script. -/
def parsedVersion (scriptHex : List ℕ) : ℤ :=
  let metaScript := jsSubstr scriptHex ((scriptHex.length : ℤ) - 5) 5
  bin2num (jsSubstr metaScript ((metaScript.length : ℤ) - 1) 1)

/-- The state-hex slice taken by `Stateful.parseStateHex`: read the
4-byte body length out of the trailing 5-byte meta script and slice that
many bytes immediately before the trailer, with the clamping semantics of
JS `substr` and no bounds check. -/
def sliceState (scriptHex : List ℕ) : List ℕ :=
  let n : ℤ := scriptHex.length
  let metaScript := jsSubstr scriptHex (n - 5) 5
  let stateLen := bin2num (jsSubstr metaScript 0 4)
  jsSubstr scriptHex (n - 5 - stateLen) stateLen

/-- `Stateful.parseStateHex` over the flattened property template. The
source computes the trailing version byte (see `parsedVersion`) but never
checks it, and performs no truncation check on the slice. -/
def parseStateHex (props : List (String × ScryptType)) (scriptHex : List ℕ) :
    Except String (Bool × List Argument) :=
  parseBody props (sliceState scriptHex)

end Stateful

/-- The raw byte-string primitive kinds of the source, those encoded by
`bytes2hex` and decoded by `hex2bytes` both ways (SigHashType is excluded:
it is encoded as bytes but decoded as an integer). -/
def isByteKind : ScryptType → Bool
  | .bytes | .pubkey | .sig | .ripemd160 | .sha1 | .sha256 | .sighashpreimage | .opcodetype => true
  | _ => false

/-- The push-data payload produced by `Stateful.toHex` for a non-Boolean
leaf value. -/
def leafPayload : SupportedParamType → List ℕ
  | .int n => if n = 0 then [0] else smEncode n
  | .lit t v =>
    if t = ScryptType.privkey then (if litInt v = 0 then [0] else smEncode (litInt v))
    else litBytes v
  | _ => []

/-- Well-typed leaf assignments on which the codec round-trips: Boolean,
Integer and PrivKey leaves with any value, raw byte-string leaves with a
nonempty payload, and SigHashType leaves whose single payload byte stays
below 0x80. -/
inductive GoodLeaf : Argument → Prop where
  | bool (nm : String) (b : Bool) : GoodLeaf ⟨nm, .bool, .bool b⟩
  | int (nm : String) (n : ℤ) : GoodLeaf ⟨nm, .int, .int n⟩
  | privkey (nm : String) (n : ℤ) : GoodLeaf ⟨nm, .privkey, .lit .privkey (.i n)⟩
  | sighashtype (nm : String) (b : ℕ) (hb : b < 128) :
      GoodLeaf ⟨nm, .sighashtype, .lit .sighashtype (.bs [b])⟩
  | bytesKind (nm : String) (t : ScryptType) (bs : List ℕ) (ht : isByteKind t = true)
      (hne : bs ≠ []) : GoodLeaf ⟨nm, t, .lit t (.bs bs)⟩

/-- `serializeBool` of serializer.ts. -/
def serializeBool (flag : Bool) : List ℕ :=
  if flag then [1] else [0]

/-- `serializeInt` of serializer.ts: 0 is special-cased to the byte 0x00,
everything else is the sign-magnitude little-endian encoding. -/
def serializeInt (n : ℤ) : List ℕ :=
  if n = 0 then [0] else smEncode n

/-- `serializeBytes` of serializer.ts: the raw hex bytes, unvalidated. -/
def serializeBytes (hexStr : List ℕ) : List ℕ := hexStr

/-- A JS value of the legacy `State` record: boolean, number or string. -/
inductive SState where
  | b (x : Bool)
  | n (x : ℤ)
  | s (x : List ℕ)
deriving DecidableEq, Repr

/-- `serialize` of serializer.ts: dispatch on the JS runtime type. -/
def serialize : SState → List ℕ
  | .b x => serializeBool x
  | .n x => serializeInt x
  | .s x => serializeBytes x

/-- `STATE_LEN` of serializer.ts: the fixed byte width of the legacy
state length field. -/
def STATE_LEN : ℕ := 2

/-- `serializeState` of serializer.ts over the ordered record values,
modelled as the list of ASM chunks it joins with spaces: each value
serialized, then the accumulated length (one assumed length-prefix byte
plus the payload bytes per element) encoded on `STATE_LEN` bytes. -/
def serializeState (state : List SState) : List (List ℕ) :=
  let asms := state.map serialize
  let stateLen := (state.map (fun s => 1 + (serialize s).length)).sum
  asms ++ [num2bin stateLen STATE_LEN]

end Scryptlib


namespace Scryptlib

@[simp] theorem leVal_nil : leVal [] = 0 := rfl

@[simp] theorem leVal_cons (b : ℕ) (bs : List ℕ) :
    leVal (b :: bs) = b + 256 * leVal bs := rfl

theorem leVal_concat (xs : List ℕ) (b : ℕ) :
    leVal (xs ++ [b]) = leVal xs + b * 256 ^ xs.length := by
  induction xs with
  | nil => simp [leVal]
  | cons a l ih => simp [leVal_cons, ih, pow_succ]; ring

@[simp] theorem leDigits_zero (f : ℕ) : leDigits f 0 = [] := by
  cases f <;> rfl

theorem leDigits_succ (f m : ℕ) (h : 0 < m) :
    leDigits (f + 1) m = m % 256 :: leDigits f (m / 256) := by
  cases m with
  | zero => omega
  | succ k => rfl

theorem leVal_leDigits : ∀ f m, m ≤ f → leVal (leDigits f m) = m := by
  intro f
  induction f with
  | zero =>
    intro m h
    have : m = 0 := by omega
    simp [this]
  | succ f ih =>
    intro m h
    rcases Nat.eq_zero_or_pos m with h0 | h0
    · simp [h0]
    · rw [leDigits_succ f m h0, leVal_cons]
      have hdiv : m / 256 ≤ f := by
        have := Nat.div_lt_self h0 (by norm_num : 1 < 256)
        omega
      rw [ih (m / 256) hdiv]
      omega

theorem leDigits_ne_nil (f m : ℕ) (h0 : 0 < m) (hf : m ≤ f) :
    leDigits f m ≠ [] := by
  cases f with
  | zero => omega
  | succ f => rw [leDigits_succ f m h0]; simp

theorem leDigits_all_lt : ∀ f m, ∀ b ∈ leDigits f m, b < 256 := by
  intro f
  induction f with
  | zero => intro m b hb; simp [leDigits] at hb
  | succ f ih =>
    intro m b hb
    rcases Nat.eq_zero_or_pos m with h0 | h0
    · simp [h0] at hb
    · rw [leDigits_succ f m h0] at hb
      rcases List.mem_cons.1 hb with h | h
      · subst h; exact Nat.mod_lt _ (by norm_num)
      · exact ih (m / 256) b h

theorem leDigits_getLast_pos :
    ∀ f m, 0 < m → m ≤ f → ∀ b, (leDigits f m).getLast? = some b → 0 < b := by
  intro f
  induction f with
  | zero => intro m h0 hf; omega
  | succ f ih =>
    intro m h0 hf b hb
    rw [leDigits_succ f m h0] at hb
    rcases Nat.eq_zero_or_pos (m / 256) with hd | hd
    · rw [hd, leDigits_zero] at hb
      simp at hb
      omega
    · have hdle : m / 256 ≤ f := by
        have := Nat.div_lt_self h0 (by norm_num : 1 < 256)
        omega
      have hne := leDigits_ne_nil f (m / 256) hd hdle
      rcases hq : leDigits f (m / 256) with _ | ⟨c, l⟩
      · exact absurd hq hne
      · rw [hq, List.getLast?_cons_cons] at hb
        exact ih (m / 256) hd hdle b (hq ▸ hb)

theorem getLast?_mem_list : ∀ (l : List ℕ) (b : ℕ), l.getLast? = some b → b ∈ l := by
  intro l
  induction l with
  | nil => intro b hb; simp at hb
  | cons a l ih =>
    intro b hb
    cases l with
    | nil =>
      simp [List.getLast?] at hb
      simp [hb]
    | cons c l2 =>
      rw [List.getLast?_cons_cons] at hb
      exact List.mem_cons_of_mem a (ih b hb)

theorem natToLEB_ne_nil (n : ℕ) (h : 0 < n) : natToLEB n ≠ [] :=
  leDigits_ne_nil n n h le_rfl

theorem leVal_natToLEB (n : ℕ) : leVal (natToLEB n) = n :=
  leVal_leDigits n n le_rfl

theorem natToLEB_getLast_pos (n : ℕ) (h : 0 < n) (b : ℕ)
    (hb : (natToLEB n).getLast? = some b) : 0 < b :=
  leDigits_getLast_pos n n h le_rfl b hb

theorem natToLEB_getLast_lt (n b : ℕ) (hb : (natToLEB n).getLast? = some b) :
    b < 256 :=
  leDigits_all_lt n n b (getLast?_mem_list _ b hb)

theorem bin2num_concat (xs : List ℕ) (b : ℕ) :
    bin2num (xs ++ [b]) =
      if b < 128 then (leVal (xs ++ [b]) : ℤ) else -(leVal (xs ++ [b - 128]) : ℤ) := by
  unfold bin2num
  rw [List.getLast?_concat, List.dropLast_concat]

theorem smEncode_eq (n : ℤ) (h : n ≠ 0) :
    smEncode n =
      if 128 ≤ (natToLEB n.natAbs).getLast (natToLEB_ne_nil n.natAbs (Int.natAbs_pos.2 h)) then
        natToLEB n.natAbs ++ [if n < 0 then 128 else 0]
      else if n < 0 then
        (natToLEB n.natAbs).dropLast ++
          [(natToLEB n.natAbs).getLast (natToLEB_ne_nil n.natAbs (Int.natAbs_pos.2 h)) + 128]
      else natToLEB n.natAbs := by
  have hne := natToLEB_ne_nil n.natAbs (Int.natAbs_pos.2 h)
  simp only [smEncode]
  rw [List.getLast?_eq_getLast _ hne]

theorem smEncode_ne_nil (n : ℤ) (h : n ≠ 0) : smEncode n ≠ [] := by
  have hne := natToLEB_ne_nil n.natAbs (Int.natAbs_pos.2 h)
  rw [smEncode_eq n h]
  split
  · simp
  · split
    · simp
    · exact hne

theorem bin2num_smEncode (n : ℤ) (h : n ≠ 0) : bin2num (smEncode n) = n := by
  have h0 : 0 < n.natAbs := Int.natAbs_pos.2 h
  have hne := natToLEB_ne_nil n.natAbs h0
  have hval := leVal_natToLEB n.natAbs
  set last := (natToLEB n.natAbs).getLast hne with hlastdef
  have hq : (natToLEB n.natAbs).getLast? = some last := List.getLast?_eq_getLast _ hne
  have hlast_pos : 0 < last := natToLEB_getLast_pos n.natAbs h0 last hq
  have hlast_lt : last < 256 := natToLEB_getLast_lt n.natAbs last hq
  have hsplit : (natToLEB n.natAbs).dropLast ++ [last] = natToLEB n.natAbs :=
    List.dropLast_append_getLast hne
  rw [smEncode_eq n h, ← hlastdef]
  by_cases hhi : 128 ≤ last
  · rw [if_pos hhi]
    by_cases hneg : n < 0
    · rw [if_pos hneg, bin2num_concat, if_neg (by omega)]
      have h128 : (128 : ℕ) - 128 = 0 := rfl
      rw [h128, leVal_concat, hval]
      simp only [zero_mul, add_zero]
      omega
    · rw [if_neg hneg, bin2num_concat, if_pos (by omega), leVal_concat, hval]
      simp only [zero_mul, add_zero]
      omega
  · rw [if_neg hhi]
    by_cases hneg : n < 0
    · rw [if_pos hneg, bin2num_concat, if_neg (by omega)]
      have hsub : last + 128 - 128 = last := by omega
      rw [hsub, hsplit, hval]
      omega
    · rw [if_neg hneg]
      conv_lhs => rw [← hsplit]
      rw [bin2num_concat, if_pos (by omega), hsplit, hval]
      omega

theorem num2bin_four (n : ℕ) :
    num2bin n 4 = [n % 256, n / 256 % 256, n / 65536 % 256, n / 16777216 % 256] := by
  norm_num [num2bin, List.range_succ]

@[simp] theorem num2bin_length (n size : ℕ) : (num2bin n size).length = size := by
  simp [num2bin]

theorem bin2num_num2bin_four (n : ℕ) (h : n < 2 ^ 31) :
    bin2num (num2bin n 4) = n := by
  rw [num2bin_four]
  unfold bin2num
  have htop : n / 16777216 % 256 < 128 := by omega
  simp only [List.getLast?, leVal_cons, leVal_nil]
  norm_num
  rw [if_pos htop]
  omega

@[simp] theorem num2bin_zero_one : num2bin 0 1 = [0] := rfl

theorem length_lt_pushData (p : List ℕ) (hne : p ≠ []) :
    p.length < (pushData p).length := by
  have hL : p.length ≠ 0 := by simpa using hne
  simp only [pushData]
  rw [if_neg hL]
  split
  · simp only [List.length_cons]
    omega
  · split
    · simp only [List.length_cons]
      omega
    · split
      · simp only [List.length_cons]
        omega
      · simp only [List.length_cons]
        omega

theorem two_le_length_pushData (p : List ℕ) (hne : p ≠ []) :
    2 ≤ (pushData p).length := by
  have h1 : 1 ≤ p.length := by
    have := List.length_pos.2 hne
    omega
  have := length_lt_pushData p hne
  omega

theorem pushData_ne_marker (p : List ℕ) (hne : p ≠ []) : pushData p ≠ [0] := by
  intro hcontra
  have := two_le_length_pushData p hne
  rw [hcontra] at this
  simp at this

theorem firstChunk_pushData (p : List ℕ) (hne : p ≠ [])
    (hlen : p.length < 4294967296) :
    firstChunkPayload (pushData p) = .ok p := by
  have hL : p.length ≠ 0 := by simpa using hne
  have h1 : 1 ≤ p.length := by omega
  simp only [pushData]
  rw [if_neg hL]
  by_cases h75 : p.length ≤ 75
  · rw [if_pos h75]
    simp [firstChunkPayload, h1, h75, List.take_length]
  · rw [if_neg h75]
    by_cases h255 : p.length ≤ 255
    · rw [if_pos h255]
      simp [firstChunkPayload, List.take_length]
    · rw [if_neg h255]
      by_cases h65535 : p.length ≤ 65535
      · rw [if_pos h65535]
        have harg : p.length % 256 + 256 * (p.length / 256) = p.length := by omega
        simp [firstChunkPayload, harg, List.take_length]
      · rw [if_neg h65535]
        have harg : p.length % 256 + 256 * (p.length / 256 % 256) +
            65536 * (p.length / 65536 % 256) + 16777216 * (p.length / 16777216 % 256) =
            p.length := by omega
        simp [firstChunkPayload, harg, List.take_length]

theorem readUInt8_at (buf : List ℕ) (pos : ℕ) (x : ℕ) (l : List ℕ)
    (h : buf.drop pos = x :: l) :
    readUInt8 ⟨buf, pos⟩ = .ok (x, ⟨buf, pos + 1⟩) := by
  simp [readUInt8, h]

theorem drop_succ_of_drop (buf : List ℕ) (pos : ℕ) (x : ℕ) (l : List ℕ)
    (h : buf.drop pos = x :: l) : buf.drop (pos + 1) = l := by
  rw [← List.drop_drop, h]
  rfl

theorem drop_add_of_drop (buf : List ℕ) (pos : ℕ) (w l : List ℕ)
    (h : buf.drop pos = w ++ l) : buf.drop (pos + w.length) = l := by
  rw [← List.drop_drop, h, List.drop_left]

theorem readBytes_pushData (buf : List ℕ) (pos : ℕ) (p tail1 : List ℕ)
    (hne : p ≠ []) (hlen : p.length < 4294967296)
    (h : buf.drop pos = pushData p ++ tail1) :
    readBytes ⟨buf, pos⟩ = .ok (p, ⟨buf, pos + (pushData p).length⟩) := by
  have hL : p.length ≠ 0 := by simpa using hne
  have h1 : 1 ≤ p.length := by omega
  by_cases h75 : p.length ≤ 75
  · have hw : pushData p = p.length :: p := by
      simp only [pushData]
      rw [if_neg hL, if_pos h75]
    rw [hw] at h ⊢
    rw [List.cons_append] at h
    have h2 := drop_succ_of_drop _ _ _ _ h
    simp [readBytes, readUInt8_at _ _ _ _ h, h1, h75, brRead, h2, List.take_left]
    omega
  · by_cases h255 : p.length ≤ 255
    · have hw : pushData p = 76 :: p.length :: p := by
        simp only [pushData]
        rw [if_neg hL, if_neg h75, if_pos h255]
      rw [hw] at h ⊢
      rw [List.cons_append, List.cons_append] at h
      have h2 := drop_succ_of_drop _ _ _ _ h
      have h3 := drop_succ_of_drop _ _ _ _ h2
      simp [readBytes, readUInt8_at _ _ _ _ h, readUInt8_at _ _ _ _ h2, brRead,
        h3, List.take_left]
      omega
    · by_cases h65535 : p.length ≤ 65535
      · have hw : pushData p = 77 :: p.length % 256 :: p.length / 256 :: p := by
          simp only [pushData]
          rw [if_neg hL, if_neg h75, if_neg h255, if_pos h65535]
        rw [hw] at h ⊢
        rw [List.cons_append, List.cons_append, List.cons_append] at h
        have h2 := drop_succ_of_drop _ _ _ _ h
        have h3 := drop_succ_of_drop _ _ _ _ h2
        have h4 := drop_succ_of_drop _ _ _ _ h3
        have harg : p.length % 256 + 256 * (p.length / 256) = p.length := by omega
        simp [readBytes, readUInt8_at _ _ _ _ h, readUInt8_at _ _ _ _ h2,
          readUInt8_at _ _ _ _ h3, brRead, h4, harg, List.take_left]
        omega
      · have hw : pushData p = 78 :: p.length % 256 :: p.length / 256 % 256 ::
            p.length / 65536 % 256 :: p.length / 16777216 % 256 :: p := by
          simp only [pushData]
          rw [if_neg hL, if_neg h75, if_neg h255, if_neg h65535]
        rw [hw] at h ⊢
        rw [List.cons_append, List.cons_append, List.cons_append, List.cons_append,
          List.cons_append] at h
        have h2 := drop_succ_of_drop _ _ _ _ h
        have h3 := drop_succ_of_drop _ _ _ _ h2
        have h4 := drop_succ_of_drop _ _ _ _ h3
        have h5 := drop_succ_of_drop _ _ _ _ h4
        have h6 := drop_succ_of_drop _ _ _ _ h5
        have harg : p.length % 256 + 256 * (p.length / 256 % 256) +
            65536 * (p.length / 65536 % 256) + 16777216 * (p.length / 16777216 % 256) =
            p.length := by omega
        simp [readBytes, readUInt8_at _ _ _ _ h, readUInt8_at _ _ _ _ h2,
          readUInt8_at _ _ _ _ h3, readUInt8_at _ _ _ _ h4, readUInt8_at _ _ _ _ h5,
          brRead, h6, harg, List.take_left]
        omega

end Scryptlib

namespace Scryptlib

theorem GoodLeaf_bool_inv (a : Argument) (hg : GoodLeaf a)
    (hb : a.type = ScryptType.bool) : ∃ b, a.value = .bool b := by
  cases hg <;> simp_all [isByteKind]

open Stateful in
theorem toHex_eq_pushData (a : Argument) (hg : GoodLeaf a)
    (hb : a.type ≠ ScryptType.bool) :
    toHex a.value = pushData (leafPayload a.value) ∧ leafPayload a.value ≠ [] := by
  cases hg with
  | bool nm b => exact absurd rfl hb
  | int nm n =>
    refine ⟨by simp [toHex, int2hex, leafPayload], ?_⟩
    by_cases h0 : n = 0
    · simp [leafPayload, h0]
    · simp [leafPayload, h0, smEncode_ne_nil n h0]
  | privkey nm n =>
    refine ⟨by simp [toHex, int2hex, leafPayload, litInt], ?_⟩
    by_cases h0 : n = 0
    · simp [leafPayload, litInt, h0]
    · simp [leafPayload, litInt, h0, smEncode_ne_nil n h0]
  | sighashtype nm b hb2 =>
    refine ⟨?_, by simp [leafPayload, litBytes]⟩
    simp [toHex, leafPayload, litBytes, bytes2hex]
  | bytesKind nm t bs ht hne =>
    have hpk : t ≠ ScryptType.privkey := by
      intro hcontra
      rw [hcontra] at ht
      simp [isByteKind] at ht
    refine ⟨?_, by simp [leafPayload, hpk, litBytes, hne]⟩
    simp [toHex, leafPayload, hpk, litBytes, bytes2hex, hne]

theorem bin2num_single (b : ℕ) (hb : b < 128) : bin2num [b] = b := by
  unfold bin2num
  simp [List.getLast?, hb, leVal]

open Stateful in
theorem deserializer_toHex (a : Argument) (hg : GoodLeaf a)
    (hlen : (leafPayload a.value).length < 4294967296) :
    deserializer a.type (toHex a.value) = .ok a.value := by
  cases hg with
  | bool nm b => cases b <;> rfl
  | int nm n =>
    by_cases h0 : n = 0
    · subst h0
      rfl
    · have hplen : (smEncode n).length < 4294967296 := by
        simpa [leafPayload, h0] using hlen
      simp [deserializer, toHex, int2hex, h0, hex2int,
        firstChunk_pushData (smEncode n) (smEncode_ne_nil n h0) hplen,
        bin2num_smEncode n h0]
  | privkey nm n =>
    by_cases h0 : n = 0
    · subst h0
      rfl
    · have hplen : (smEncode n).length < 4294967296 := by
        simpa [leafPayload, litInt, h0] using hlen
      simp [deserializer, toHex, int2hex, litInt, h0, hex2int,
        firstChunk_pushData (smEncode n) (smEncode_ne_nil n h0) hplen,
        bin2num_smEncode n h0]
  | sighashtype nm b hb =>
    have hne : ([b] : List ℕ) ≠ [] := by simp
    have hplen : ([b] : List ℕ).length < 4294967296 := by simp
    have hb256 : (b : ℤ) < 256 := by omega
    have hb0 : (0 : ℤ) ≤ (b : ℤ) := Int.natCast_nonneg b
    simp [deserializer, toHex, bytes2hex, litBytes, hex2int,
      firstChunk_pushData [b] hne hplen, bin2num_single b hb, sigHashLit,
      hb256, hb0]
  | bytesKind nm t bs ht hne =>
    have hpk : t ≠ ScryptType.privkey := by
      intro hcontra
      rw [hcontra] at ht
      simp [isByteKind] at ht
    have hplen : bs.length < 4294967296 := by
      simpa [leafPayload, hpk, litBytes] using hlen
    have hfc := firstChunk_pushData bs hne hplen
    have hmark := pushData_ne_marker bs hne
    cases t <;> simp_all [deserializer, toHex, bytes2hex, litBytes, hex2bytes,
      isByteKind]

end Scryptlib

namespace Scryptlib

open Stateful

theorem walkTemplate_cons_bool (nm : String) (t : ScryptType)
    (rest : List (String × ScryptType)) (br : BR) (acc : List (String × List ℕ))
    (op : ℕ) (br1 : BR) (ht : t = ScryptType.bool)
    (hr : readUInt8 br = .ok (op, br1)) :
    walkTemplate ((nm, t) :: rest) br acc =
      walkTemplate rest br1 (mapSet acc nm (if op = 1 then [1] else [0])) := by
  simp [walkTemplate, ht, hr]

theorem walkTemplate_cons_push (nm : String) (t : ScryptType)
    (rest : List (String × ScryptType)) (br : BR) (acc : List (String × List ℕ))
    (data : List ℕ) (br1 : BR) (ht : t ≠ ScryptType.bool)
    (hr : readBytes br = .ok (data, br1)) :
    walkTemplate ((nm, t) :: rest) br acc =
      walkTemplate rest br1 (mapSet acc nm (if data.isEmpty then [] else pushData data)) := by
  simp [walkTemplate, ht, hr]

theorem walkTemplate_spec :
    ∀ (args : List Argument) (buf : List ℕ) (pos : ℕ)
      (acc : List (String × List ℕ)) (rest : List ℕ),
    (∀ a ∈ args, GoodLeaf a) →
    (∀ a ∈ args, (leafPayload a.value).length < 4294967296) →
    buf.drop pos = (args.map fun a => toHex a.value).flatten ++ rest →
    walkTemplate (args.map fun a => (a.name, a.type)) ⟨buf, pos⟩ acc =
      .ok (args.foldl (fun m a => mapSet m a.name (toHex a.value)) acc) := by
  intro args
  induction args with
  | nil =>
    intro buf pos acc rest hg hlen h
    simp [walkTemplate]
  | cons a args ih =>
    intro buf pos acc rest hg hlen h
    rw [List.map_cons, List.flatten_cons, List.append_assoc] at h
    have hga := hg a (List.mem_cons_self a args)
    have hg2 : ∀ x ∈ args, GoodLeaf x := fun x hx => hg x (List.mem_cons_of_mem a hx)
    have hlen2 : ∀ x ∈ args, (leafPayload x.value).length < 4294967296 :=
      fun x hx => hlen x (List.mem_cons_of_mem a hx)
    rw [List.map_cons, List.foldl_cons]
    by_cases hb : a.type = ScryptType.bool
    · obtain ⟨b, hv⟩ := GoodLeaf_bool_inv a hga hb
      rw [hv] at h
      cases b with
      | true =>
        rw [show toHex (.bool true) = 1 :: [] from rfl, List.cons_append,
          List.nil_append] at h
        have h2 := drop_succ_of_drop _ _ _ _ h
        rw [walkTemplate_cons_bool a.name a.type _ _ acc 1 ⟨buf, pos + 1⟩ hb
          (readUInt8_at _ _ _ _ h)]
        have hentry : (if (1 : ℕ) = 1 then ([1] : List ℕ) else [0]) = toHex a.value := by
          rw [hv]
          rfl
        rw [hentry, ih buf (pos + 1) _ rest hg2 hlen2 h2]
      | false =>
        rw [show toHex (.bool false) = 0 :: [] from rfl, List.cons_append,
          List.nil_append] at h
        have h2 := drop_succ_of_drop _ _ _ _ h
        rw [walkTemplate_cons_bool a.name a.type _ _ acc 0 ⟨buf, pos + 1⟩ hb
          (readUInt8_at _ _ _ _ h)]
        have hentry : (if (0 : ℕ) = 1 then ([1] : List ℕ) else [0]) = toHex a.value := by
          rw [hv]
          rfl
        rw [hentry, ih buf (pos + 1) _ rest hg2 hlen2 h2]
    · obtain ⟨hpush, hpne⟩ := toHex_eq_pushData a hga hb
      have hplen : (leafPayload a.value).length < 4294967296 :=
        hlen a (List.mem_cons_self a args)
      rw [hpush] at h
      have hrb := readBytes_pushData buf pos (leafPayload a.value) _ hpne hplen h
      have h2 : buf.drop (pos + (pushData (leafPayload a.value)).length) =
          (args.map fun a => toHex a.value).flatten ++ rest :=
        drop_add_of_drop _ _ _ _ h
      rw [walkTemplate_cons_push a.name a.type _ _ acc (leafPayload a.value)
        ⟨buf, pos + (pushData (leafPayload a.value)).length⟩ hb hrb]
      have hentry : (if (leafPayload a.value).isEmpty then ([] : List ℕ)
          else pushData (leafPayload a.value)) = toHex a.value := by
        rw [hpush]
        simp [List.isEmpty_iff, hpne]
      rw [hentry, ih buf _ _ rest hg2 hlen2 h2]

theorem mapSet_fresh (m : List (String × List ℕ)) (k : String) (v : List ℕ)
    (h : k ∉ m.map Prod.fst) : mapSet m k v = m ++ [(k, v)] := by
  induction m with
  | nil => rfl
  | cons e rest ih =>
    obtain ⟨k1, v1⟩ := e
    simp only [List.map_cons, List.mem_cons] at h
    push_neg at h
    simp only [mapSet]
    rw [if_neg (fun hcontra => h.1 hcontra.symm), ih h.2]
    rfl

theorem foldl_mapSet (args : List Argument) :
    ∀ acc : List (String × List ℕ),
    (∀ a ∈ args, a.name ∉ acc.map Prod.fst) →
    (args.map Argument.name).Nodup →
    args.foldl (fun m a => mapSet m a.name (toHex a.value)) acc =
      acc ++ args.map (fun a => (a.name, toHex a.value)) := by
  induction args with
  | nil => intro acc hfresh hnodup; simp
  | cons a args ih =>
    intro acc hfresh hnodup
    rw [List.foldl_cons,
      mapSet_fresh acc a.name (toHex a.value) (hfresh a (List.mem_cons_self a args))]
    rw [List.map_cons, List.nodup_cons] at hnodup
    have hfresh2 : ∀ x ∈ args, x.name ∉ (acc ++ [(a.name, toHex a.value)]).map Prod.fst := by
      intro x hx
      rw [List.map_append, List.mem_append]
      push_neg
      refine ⟨hfresh x (List.mem_cons_of_mem a hx), ?_⟩
      simp only [List.map_cons, List.map_nil, List.mem_singleton]
      intro hcontra
      exact hnodup.1 (hcontra ▸ List.mem_map_of_mem Argument.name hx)
    rw [ih _ hfresh2 hnodup.2, List.append_assoc]
    rfl

theorem lookup_map_template (args : List Argument)
    (hnodup : (args.map Argument.name).Nodup) :
    ∀ a ∈ args,
      (args.map fun x => (x.name, toHex x.value)).lookup a.name =
        some (toHex a.value) := by
  induction args with
  | nil => intro a ha; simp at ha
  | cons b args ih =>
    rw [List.map_cons, List.nodup_cons] at hnodup
    intro a ha
    rcases List.mem_cons.1 ha with h | h
    · subst h
      simp [List.lookup]
    · have hne : a.name ≠ b.name := by
        intro hcontra
        exact hnodup.1 (hcontra ▸ List.mem_map_of_mem Argument.name h)
      have hbeq : (a.name == b.name) = false := beq_eq_false_iff_ne.2 hne
      simp only [List.map_cons, List.lookup, hbeq]
      exact ih hnodup.2 a h

theorem mapDeser_spec (templ : List (String × List ℕ)) (args : List Argument)
    (hl : ∀ a ∈ args, templ.lookup a.name = some (toHex a.value))
    (hg : ∀ a ∈ args, GoodLeaf a)
    (hlen : ∀ a ∈ args, (leafPayload a.value).length < 4294967296) :
    mapDeser templ (args.map fun a => (a.name, a.type)) = .ok args := by
  induction args with
  | nil => simp [mapDeser]
  | cons a args ih =>
    simp only [List.map_cons, mapDeser, deserializeArgfromHex]
    rw [hl a (List.mem_cons_self a args)]
    simp only [Option.getD_some]
    rw [deserializer_toHex a (hg a (List.mem_cons_self a args))
      (hlen a (List.mem_cons_self a args))]
    rw [ih (fun x hx => hl x (List.mem_cons_of_mem a hx))
      (fun x hx => hg x (List.mem_cons_of_mem a hx))
      (fun x hx => hlen x (List.mem_cons_of_mem a hx))]

end Scryptlib

namespace Scryptlib

open Stateful

theorem jsSubstr_drop (A B : List ℕ) :
    jsSubstr (A ++ B) (A.length : ℤ) (B.length : ℤ) = B := by
  simp only [jsSubstr]
  rw [if_neg (not_lt.2 (Int.natCast_nonneg _))]
  have h1 : ((A.length : ℤ)).toNat = A.length := Int.toNat_natCast _
  have h2 : (max 0 (B.length : ℤ)).toNat = B.length := by
    rw [max_eq_right (Int.natCast_nonneg _)]
    exact Int.toNat_natCast _
  rw [h1, h2, List.drop_left, List.take_length]

theorem jsSubstr_prefix (A B : List ℕ) :
    jsSubstr (A ++ B) 0 (A.length : ℤ) = A := by
  simp only [jsSubstr]
  rw [if_neg (by norm_num)]
  have h2 : (max 0 (A.length : ℤ)).toNat = A.length := by
    rw [max_eq_right (Int.natCast_nonneg _)]
    exact Int.toNat_natCast _
  rw [h2]
  simp only [Int.toNat_zero, List.drop_zero]
  exact List.take_left A B

theorem sliceState_frame (body : List ℕ) (v : ℕ) (h : body.length < 2 ^ 31) :
    sliceState (body ++ num2bin body.length 4 ++ [v]) = body := by
  rw [List.append_assoc]
  have hTlen : (num2bin body.length 4 ++ [v]).length = 5 := by simp
  simp only [sliceState]
  have e1 : ((body ++ (num2bin body.length 4 ++ [v])).length : ℤ) - 5 =
      (body.length : ℤ) := by
    rw [List.length_append, hTlen]
    push_cast
    ring
  rw [e1]
  have e2 : jsSubstr (body ++ (num2bin body.length 4 ++ [v])) (body.length : ℤ) 5 =
      num2bin body.length 4 ++ [v] := by
    have h5 := jsSubstr_drop body (num2bin body.length 4 ++ [v])
    rw [hTlen] at h5
    exact_mod_cast h5
  rw [e2]
  have e3 : jsSubstr (num2bin body.length 4 ++ [v]) 0 4 = num2bin body.length 4 := by
    have h4 := jsSubstr_prefix (num2bin body.length 4) [v]
    rw [num2bin_length] at h4
    exact_mod_cast h4
  rw [e3, bin2num_num2bin_four body.length h]
  have e4 : (body.length : ℤ) - (body.length : ℤ) = 0 := by ring
  rw [e4]
  exact jsSubstr_prefix body _

theorem parseBody_eq (props : List (String × ScryptType)) (stateHex : List ℕ)
    (op : ℕ) (br1 : BR) (templ : List (String × List ℕ)) (args2 : List Argument)
    (h1 : readUInt8 ⟨stateHex, 0⟩ = .ok (op, br1))
    (h2 : walkTemplate props br1 [] = .ok templ)
    (h3 : mapDeser templ props = .ok args2) :
    parseBody props stateHex = .ok (op == 1, args2) := by
  simp [parseBody, h1, h2, h3]

theorem toHex_le_stateBody (args : List Argument) (g : Bool) (a : Argument)
    (ha : a ∈ args) :
    (toHex a.value).length ≤ (stateBody args g).length := by
  have hmem : (toHex a.value).length ∈ (args.map fun x => toHex x.value).map List.length :=
    List.mem_map_of_mem _ (List.mem_map_of_mem _ ha)
  have hsum := List.single_le_sum (fun x _ => Nat.zero_le x) _ hmem
  rw [stateBody, List.length_append, List.length_flatten]
  omega

theorem leafPayload_bound (args : List Argument) (g : Bool)
    (hg : ∀ a ∈ args, GoodLeaf a) (hlen : (stateBody args g).length < 2 ^ 31) :
    ∀ a ∈ args, (leafPayload a.value).length < 4294967296 := by
  intro a ha
  by_cases hb : a.type = ScryptType.bool
  · obtain ⟨b, hv⟩ := GoodLeaf_bool_inv a (hg a ha) hb
    rw [hv]
    simp [leafPayload]
  · obtain ⟨hpush, hpne⟩ := toHex_eq_pushData a (hg a ha) hb
    have h1 := toHex_le_stateBody args g a ha
    have h2 := length_lt_pushData (leafPayload a.value) hpne
    rw [← hpush] at h2
    omega

theorem parseBody_roundTrip (args : List Argument) (g : Bool)
    (hg : ∀ a ∈ args, GoodLeaf a)
    (hnodup : (args.map Argument.name).Nodup)
    (hlen : ∀ a ∈ args, (leafPayload a.value).length < 4294967296) :
    parseBody (args.map fun a => (a.name, a.type)) (stateBody args g) = .ok (g, args) := by
  have hbody : stateBody args g =
      (if g then 1 else 0) :: (args.map fun a => toHex a.value).flatten := by
    cases g <;> rfl
  have hdrop0 : (stateBody args g).drop 0 =
      (if g then 1 else 0) :: (args.map fun a => toHex a.value).flatten := by
    rw [List.drop_zero, hbody]
  have hr := readUInt8_at (stateBody args g) 0 _ _ hdrop0
  have hdrop1 : (stateBody args g).drop (0 + 1) =
      (args.map fun a => toHex a.value).flatten ++ [] := by
    rw [List.append_nil]
    exact drop_succ_of_drop _ _ _ _ hdrop0
  have hwalk := walkTemplate_spec args (stateBody args g) (0 + 1) [] [] hg hlen hdrop1
  rw [foldl_mapSet args [] (by simp) hnodup, List.nil_append] at hwalk
  have hmd := mapDeser_spec _ args (lookup_map_template args hnodup) hg hlen
  have hfinal := parseBody_eq (args.map fun a => (a.name, a.type)) (stateBody args g)
    (if g then 1 else 0) ⟨stateBody args g, 0 + 1⟩ _ args hr hwalk hmd
  rw [hfinal]
  cases g <;> rfl

end Scryptlib

namespace Scryptlib

open Stateful

/-- Claim C1 (amended): round-trip holds for every nonempty flattened
state declaration whose leaves are Boolean, Integer or PrivKey values,
raw byte-string values with nonempty payload, or SigHashType values below
0x80 (see `GoodLeaf`), with pairwise distinct name paths and a body below
2^31 bytes: `parseStateHex` applied to the `buildState` output recovers
the isGenesis flag and every argument value. As literally stated the
claim fails: a SigHashType leaf with the high bit set (0xc1) decodes to a
different value, see the counterexample. -/
theorem c1_state_round_trip (args : List Argument) (g : Bool)
    (h1 : args ≠ [])
    (hg : ∀ a ∈ args, GoodLeaf a)
    (hnodup : (args.map Argument.name).Nodup)
    (hlen : (stateBody args g).length < 2 ^ 31) :
    (buildState args g >>= parseStateHex (args.map fun a => (a.name, a.type))) =
      .ok (g, args) := by
  have hne0 : args.length ≠ 0 := fun hc => h1 (List.length_eq_zero.mp hc)
  unfold buildState
  rw [if_neg hne0]
  show parseStateHex (args.map fun a => (a.name, a.type))
    (stateBody args g ++ num2bin (stateBody args g).length 4 ++
      num2bin CURRENT_STATE_VERSION 1) = .ok (g, args)
  have hv : num2bin CURRENT_STATE_VERSION 1 = [0] := rfl
  rw [hv]
  unfold parseStateHex
  rw [sliceState_frame _ 0 hlen]
  exact parseBody_roundTrip args g hg hnodup (leafPayload_bound args g hg hlen)

/-- Witness for C1 (amended) at the example of spec section 8: state
properties counter = 5 (Integer) and done = true (Boolean) with
isGenesis = true build and parse back to themselves. -/
theorem c1_state_round_trip_witness :
    (([⟨"counter", .int, .int 5⟩, ⟨"done", .bool, .bool true⟩] : List Argument) ≠ []) ∧
    (∀ a ∈ ([⟨"counter", .int, .int 5⟩, ⟨"done", .bool, .bool true⟩] : List Argument),
      GoodLeaf a) ∧
    (([⟨"counter", .int, .int 5⟩, ⟨"done", .bool, .bool true⟩] : List Argument).map
      Argument.name).Nodup ∧
    (stateBody [⟨"counter", .int, .int 5⟩, ⟨"done", .bool, .bool true⟩] true).length <
      2 ^ 31 ∧
    (buildState [⟨"counter", .int, .int 5⟩, ⟨"done", .bool, .bool true⟩] true >>=
      parseStateHex [("counter", .int), ("done", .bool)]) =
      .ok (true, [⟨"counter", .int, .int 5⟩, ⟨"done", .bool, .bool true⟩]) := by
  have hgood : ∀ a ∈ ([⟨"counter", .int, .int 5⟩, ⟨"done", .bool, .bool true⟩] :
      List Argument), GoodLeaf a := by
    intro a ha
    simp only [List.mem_cons, List.mem_singleton, List.not_mem_nil, or_false] at ha
    rcases ha with rfl | rfl
    · exact GoodLeaf.int "counter" 5
    · exact GoodLeaf.bool "done" true
  exact ⟨by decide, hgood, by decide, by decide,
    c1_state_round_trip [⟨"counter", .int, .int 5⟩, ⟨"done", .bool, .bool true⟩] true
      (by decide) hgood (by decide) (by decide)⟩

/-- Counterexample to C1 as literally stated: the valid SigHashType value
0xc1 (payload byte 193, SIGHASH_SINGLE combined with ANYONECANPAY) is
encoded through the raw-bytes path and decoded through the sign-magnitude
integer path, so the parsed state carries a different value (-65 fed to
the SigHashType constructor) than the one encoded. -/
theorem c1_state_round_trip_counterexample :
    (buildState [⟨"t", .sighashtype, .lit .sighashtype (.bs [193])⟩] false >>=
      parseStateHex [("t", .sighashtype)]) =
      .ok (false, [⟨"t", .sighashtype, .lit .sighashtype (.badhex (-65))⟩]) ∧
    (buildState [⟨"t", .sighashtype, .lit .sighashtype (.bs [193])⟩] false >>=
      parseStateHex [("t", .sighashtype)]) ≠
      .ok (false, [⟨"t", .sighashtype, .lit .sighashtype (.bs [193])⟩]) := by
  have h1 : (buildState [⟨"t", .sighashtype, .lit .sighashtype (.bs [193])⟩] false >>=
      parseStateHex [("t", .sighashtype)]) =
      .ok (false, [⟨"t", .sighashtype, .lit .sighashtype (.badhex (-65))⟩]) := rfl
  refine ⟨h1, ?_⟩
  rw [h1]
  intro hcontra
  have h2 := Except.ok.inj hcontra
  simp at h2

/-- Claim C2: for a nonempty flattened leaf list (and a body that fits
the 4-byte frame), the `buildState` output is the body followed by
exactly 5 trailer bytes: a 4-byte little-endian bodyLength that reads
back as the exact byte count of the body (hidden isGenesis byte
included), then the 1-byte version, whose current value is the constant
0. -/
theorem c2_trailer_framing (args : List Argument) (g : Bool)
    (h1 : args ≠ []) (hlen : (stateBody args g).length < 2 ^ 31) :
    buildState args g =
      .ok (stateBody args g ++
        (num2bin (stateBody args g).length 4 ++ [CURRENT_STATE_VERSION])) ∧
    (num2bin (stateBody args g).length 4 ++ [CURRENT_STATE_VERSION]).length = 5 ∧
    bin2num (num2bin (stateBody args g).length 4) = ((stateBody args g).length : ℤ) ∧
    CURRENT_STATE_VERSION = 0 := by
  refine ⟨?_, by simp, bin2num_num2bin_four _ hlen, rfl⟩
  unfold buildState
  rw [if_neg (fun hc => h1 (List.length_eq_zero.mp hc))]
  rw [List.append_assoc]
  rfl

/-- Witness for C2 on a one-Boolean state. -/
theorem c2_trailer_framing_witness :
    (([⟨"done", .bool, .bool true⟩] : List Argument) ≠ []) ∧
    (stateBody [⟨"done", .bool, .bool true⟩] false).length < 2 ^ 31 ∧
    (buildState [⟨"done", .bool, .bool true⟩] false =
      .ok (stateBody [⟨"done", .bool, .bool true⟩] false ++
        (num2bin (stateBody [⟨"done", .bool, .bool true⟩] false).length 4 ++
          [CURRENT_STATE_VERSION])) ∧
    (num2bin (stateBody [⟨"done", .bool, .bool true⟩] false).length 4 ++
      [CURRENT_STATE_VERSION]).length = 5 ∧
    bin2num (num2bin (stateBody [⟨"done", .bool, .bool true⟩] false).length 4) =
      ((stateBody [⟨"done", .bool, .bool true⟩] false).length : ℤ) ∧
    CURRENT_STATE_VERSION = 0) :=
  ⟨by decide, by decide,
    c2_trailer_framing [⟨"done", .bool, .bool true⟩] false (by decide) (by decide)⟩

/-- Claim C3: the Integer value 0 encodes to a push-data element (one
length byte, payload the single byte 0x00), never an empty sequence, and
decoding it as an Integer yields exactly 0. -/
theorem c3_integer_zero_codec :
    int2hex 0 = [1, 0] ∧
    firstChunkPayload (int2hex 0) = .ok [0] ∧
    ([0] : List ℕ) ≠ [] ∧
    hex2int (int2hex 0) = .ok 0 ∧
    deserializer .int (int2hex 0) = .ok (.int 0) :=
  ⟨rfl, rfl, by decide, rfl, rfl⟩

/-- Claim C4: the empty byte string encodes to the one-byte marker 0x00,
and decoding that marker as a ByteString succeeds (no error) and returns
the empty string. -/
theorem c4_empty_bytes_marker :
    bytes2hex [] = [0] ∧
    hex2bytes [0] = .ok [] ∧
    deserializer .bytes [0] = .ok (.lit .bytes (.bs [])) :=
  ⟨rfl, rfl, rfl⟩

/-- Counterexample to C5 as stated: a script whose trailing version byte
is 1 (a version this implementation does not understand) parses
successfully; no UnsupportedVersionError is raised. -/
theorem c5_version_counterexample :
    parsedVersion ([1, 1] ++ num2bin 2 4 ++ [1]) = 1 ∧
    parseStateHex [("p", .bool)] ([1, 1] ++ num2bin 2 4 ++ [1]) =
      .ok (true, [⟨"p", .bool, .bool true⟩]) :=
  ⟨rfl, rfl⟩

/-- Claim C5 (amended): `parseStateHex` reads the trailing version byte
but never validates it: for a well-framed script the parse result is
identical for every version byte value, instead of failing on versions
other than 0. -/
theorem c5_version_ignored (props : List (String × ScryptType)) (body : List ℕ)
    (v : ℕ) (h : body.length < 2 ^ 31) :
    parseStateHex props (body ++ num2bin body.length 4 ++ [v]) =
      parseStateHex props (body ++ num2bin body.length 4 ++ [0]) := by
  unfold parseStateHex
  rw [sliceState_frame body v h, sliceState_frame body 0 h]

/-- Witness for C5 (amended): version byte 7 parses exactly like
version byte 0. -/
theorem c5_version_ignored_witness :
    (([1, 1] : List ℕ).length < 2 ^ 31) ∧
    parseStateHex [("p", .bool)] ([1, 1] ++ num2bin ([1, 1] : List ℕ).length 4 ++ [7]) =
      parseStateHex [("p", .bool)] ([1, 1] ++ num2bin ([1, 1] : List ℕ).length 4 ++ [0]) :=
  ⟨by decide, c5_version_ignored [("p", .bool)] [1, 1] 7 (by decide)⟩

end Scryptlib

namespace Scryptlib

open Stateful

/-- Counterexample to C6 as stated: a 7-byte script whose trailer claims
a 255-byte body (so the script is far shorter than bodyLength + 5 bytes)
is parsed successfully from the clamped slice; no TruncatedStateError is
raised. -/
theorem c6_truncation_counterexample :
    (([1, 1] ++ num2bin 255 4 ++ [0]) : List ℕ).length < 255 + 5 ∧
    bin2num (num2bin 255 4) = 255 ∧
    parseStateHex [("p", .bool)] ([1, 1] ++ num2bin 255 4 ++ [0]) =
      .ok (true, [⟨"p", .bool, .bool true⟩]) :=
  ⟨by decide, by decide, rfl⟩

/-- Claim C6 (amended): `parseStateHex` performs no truncation check.
For the one-Boolean template on a 7-byte script whose 4 trailer length
bytes decode to at least 9, the script is shorter than bodyLength + 5,
yet the JS substr clamping makes the parser read from the start of the
script and the parse succeeds instead of failing with
TruncatedStateError. -/
theorem c6_truncation_unchecked (c0 c1 c2 c3 : ℕ)
    (h9 : 9 ≤ bin2num [c0, c1, c2, c3]) :
    ((([1, 1, c0, c1, c2, c3, 0] : List ℕ).length : ℤ) <
      bin2num [c0, c1, c2, c3] + 5) ∧
    parseStateHex [("p", .bool)] [1, 1, c0, c1, c2, c3, 0] =
      .ok (true, [⟨"p", .bool, .bool true⟩]) := by
  refine ⟨by simp; omega, ?_⟩
  simp only [parseStateHex, sliceState]
  have hlen : (([1, 1, c0, c1, c2, c3, 0] : List ℕ).length : ℤ) = 7 := by simp
  rw [hlen]
  have hmeta : jsSubstr [1, 1, c0, c1, c2, c3, 0] ((7 : ℤ) - 5) 5 =
      [c0, c1, c2, c3, 0] := rfl
  rw [hmeta]
  have hlenslice : jsSubstr [c0, c1, c2, c3, 0] 0 4 = [c0, c1, c2, c3] := rfl
  rw [hlenslice]
  have hstate : jsSubstr [1, 1, c0, c1, c2, c3, 0]
      ((7 : ℤ) - 5 - bin2num [c0, c1, c2, c3]) (bin2num [c0, c1, c2, c3]) =
      [1, 1, c0, c1, c2, c3, 0] := by
    simp only [jsSubstr]
    rw [if_pos (by omega : (7 : ℤ) - 5 - bin2num [c0, c1, c2, c3] < 0)]
    have hln : (([1, 1, c0, c1, c2, c3, 0] : List ℕ).length : ℤ) = 7 := by simp
    rw [hln]
    have hmax0 : (max 0 (7 + ((7 : ℤ) - 5 - bin2num [c0, c1, c2, c3]))).toNat = 0 := by
      rw [max_eq_left (by omega)]
      rfl
    rw [hmax0, List.drop_zero]
    have hmaxL : (max 0 (bin2num [c0, c1, c2, c3])).toNat =
        (bin2num [c0, c1, c2, c3]).toNat := by
      rw [max_eq_right (by omega)]
    rw [hmaxL]
    refine List.take_of_length_le ?_
    simp only [List.length_cons, List.length_nil]
    omega
  rw [hstate]
  rfl

/-- Witness for C6 (amended): trailer length bytes decoding to 255. -/
theorem c6_truncation_unchecked_witness :
    (9 ≤ bin2num [255, 0, 0, 0]) ∧
    (((([1, 1, 255, 0, 0, 0, 0] : List ℕ).length : ℤ) <
      bin2num [255, 0, 0, 0] + 5) ∧
    parseStateHex [("p", .bool)] [1, 1, 255, 0, 0, 0, 0] =
      .ok (true, [⟨"p", .bool, .bool true⟩])) :=
  ⟨by decide, c6_truncation_unchecked 255 0 0 0 (by decide)⟩

/-- Counterexample to C7 as stated: a body whose isGenesis byte and
Boolean leaf byte are both 2 (neither 0x00 nor 0x01) parses successfully
with both booleans read as false; no MalformedLeafError is raised. -/
theorem c7_boolean_byte_counterexample :
    ((2 : ℕ) ≠ 0 ∧ (2 : ℕ) ≠ 1) ∧
    parseStateHex [("p", .bool)] [2, 2, 2, 0, 0, 0, 0] =
      .ok (false, [⟨"p", .bool, .bool false⟩]) :=
  ⟨by decide, rfl⟩

/-- Claim C7 (amended): the parser never validates raw boolean bytes: for
any isGenesis byte x and Boolean leaf byte y, it maps 1 to true and every
other byte value to false, and always succeeds (the validation in
`hex2bool` is bypassed because the walk pre-normalises the byte to 0x00
or 0x01). -/
theorem c7_boolean_bytes_unchecked (x y : ℕ) :
    parseStateHex [("p", .bool)] [x, y, 2, 0, 0, 0, 0] =
      .ok (x == 1, [⟨"p", .bool, .bool (y == 1)⟩]) := by
  simp only [parseStateHex, sliceState]
  have hlen : (([x, y, 2, 0, 0, 0, 0] : List ℕ).length : ℤ) = 7 := by simp
  rw [hlen]
  have hmeta : jsSubstr [x, y, 2, 0, 0, 0, 0] ((7 : ℤ) - 5) 5 = [2, 0, 0, 0, 0] := rfl
  rw [hmeta]
  have hlenslice : jsSubstr [2, 0, 0, 0, 0] 0 4 = [2, 0, 0, 0] := rfl
  rw [hlenslice]
  have hbn : bin2num [2, 0, 0, 0] = 2 := by decide
  rw [hbn]
  have hstate : jsSubstr [x, y, 2, 0, 0, 0, 0] ((7 : ℤ) - 5 - 2) 2 = [x, y] := rfl
  rw [hstate]
  have hr0 : readUInt8 ⟨[x, y], 0⟩ = .ok (x, ⟨[x, y], 0 + 1⟩) :=
    readUInt8_at [x, y] 0 x [y] rfl
  have hr1 : readUInt8 ⟨[x, y], 0 + 1⟩ = .ok (y, ⟨[x, y], 0 + 1 + 1⟩) :=
    readUInt8_at [x, y] (0 + 1) y [] rfl
  have hwalk : walkTemplate [("p", ScryptType.bool)] ⟨[x, y], 0 + 1⟩ [] =
      .ok [("p", if y = 1 then [1] else [0])] := by
    rw [walkTemplate_cons_bool "p" ScryptType.bool [] _ [] y ⟨[x, y], 0 + 1 + 1⟩ rfl hr1]
    rfl
  have hmd : mapDeser [("p", if y = 1 then [1] else [0])] [("p", ScryptType.bool)] =
      .ok [⟨"p", ScryptType.bool, .bool (y == 1)⟩] := by
    by_cases hy : y = 1
    · simp [hy, mapDeser, deserializeArgfromHex, deserializer, hex2bool, List.lookup]
    · have hbeq : (y == 1) = false := by
        simp [hy]
      simp [hy, hbeq, mapDeser, deserializeArgfromHex, deserializer, hex2bool,
        List.lookup]
  exact parseBody_eq [("p", ScryptType.bool)] [x, y] x ⟨[x, y], 0 + 1⟩ _ _ hr0 hwalk hmd

/-- Counterexample to C8 as stated: the SigHashType payload byte 0xc1
(193) is not encoded as an Integer (its wire form differs from the
Integer encoding of 193), and decoding its encoding yields the negative
integer -65 instead of the original small non-negative integer. -/
theorem c8_sighashtype_counterexample :
    toHex (.lit .sighashtype (.bs [193])) = [1, 193] ∧
    toHex (.lit .sighashtype (.bs [193])) ≠ int2hex 193 ∧
    hex2int (toHex (.lit .sighashtype (.bs [193]))) = .ok (-65) ∧
    deserializer .sighashtype (toHex (.lit .sighashtype (.bs [193]))) =
      .ok (.lit .sighashtype (.badhex (-65))) :=
  ⟨rfl, by decide, rfl, rfl⟩

/-- Claim C8 (amended): a SigHashType leaf is encoded by the raw-bytes
encoder `bytes2hex` (not the Integer encoder); for single-byte payloads
below 0x80 this coincides with the Integer wire form and decoding returns
the same small non-negative value, but not for payloads with the high bit
set. -/
theorem c8_sighashtype_low_roundtrip (b : ℕ) (hb : b < 128) :
    toHex (.lit .sighashtype (.bs [b])) = bytes2hex [b] ∧
    deserializer .sighashtype (toHex (.lit .sighashtype (.bs [b]))) =
      .ok (.lit .sighashtype (.bs [b])) := by
  refine ⟨rfl, ?_⟩
  refine deserializer_toHex ⟨"t", .sighashtype, .lit .sighashtype (.bs [b])⟩
    (GoodLeaf.sighashtype "t" b hb) ?_
  have hne : ScryptType.sighashtype ≠ ScryptType.privkey := by decide
  norm_num [leafPayload, litBytes, hne]

/-- Witness for C8 (amended) at the SigHashType byte 0x41 (65). -/
theorem c8_sighashtype_low_roundtrip_witness :
    (65 : ℕ) < 128 ∧
    (toHex (.lit .sighashtype (.bs [65])) = bytes2hex [65] ∧
    deserializer .sighashtype (toHex (.lit .sighashtype (.bs [65]))) =
      .ok (.lit .sighashtype (.bs [65]))) :=
  ⟨by decide, c8_sighashtype_low_roundtrip 65 (by decide)⟩

/-- Counterexample to C9 as stated: `toHex` applied to a value that is
not a bigint, boolean or string does not surface an error: it silently
returns the default one-byte encoding 0x00 (the same bytes as the empty
byte-string marker). -/
theorem c9_default_counterexample :
    toHex .other = [0] ∧ bytes2hex [] = [0] :=
  ⟨rfl, rfl⟩

/-- Claim C9 (amended): the decode direction does surface an error for
every non-native kind, but the encode direction does not: `toHex`
silently returns the default encoding 0x00 for any unsupported runtime
value. -/
theorem c9_error_asymmetry (s : String) (hex : List ℕ) :
    deserializer (.custom s) hex =
      .error "cannot be cast to ScryptType, only sCrypt native types supported" ∧
    toHex .other = [0] :=
  ⟨rfl, rfl⟩

/-- Claim C10: the legacy ASM serializer appends a trailing length chunk
equal to the sum over the record values of (1 + payload byte length) —
one assumed length-prefix byte per element regardless of payload size —
encoded on the fixed STATE_LEN = 2 bytes, a different frame width than
the 4-byte bodyLength of `buildState`. -/
theorem c10_legacy_serialize_state (state : List SState) :
    serializeState state =
      state.map serialize ++
        [num2bin ((state.map (fun x => 1 + (serialize x).length)).sum) STATE_LEN] ∧
    STATE_LEN = 2 ∧ STATE_LEN ≠ 4 ∧
    ∀ n : ℕ, (num2bin n STATE_LEN).length = 2 :=
  ⟨rfl, rfl, by decide, fun n => by simp [STATE_LEN]⟩

end Scryptlib
